import Mathlib

/-!
Verification of the n1qlizer immutable builder kernel.

This file gives a shallow embedding of the kernel of the n1qlizer library:
the persistent string-keyed map (`map.go`), the persistent list (`list.go`),
the generic accessor layer and struct materialization (`builder.go` parts),
and the expression composition protocol (`n1qlizer.go`): expressions,
AND/OR combination, aliasing, clause joining and placeholder finalization.

Go machine integers are modelled as `Nat` with explicit reduction mod `2 ^ 64`
where overflow matters.  Go's `(value, error)` returns are modelled with
`Except`; panics are modelled with `Option`/`Except` error results.
-/

namespace N1qlizer

/-- Closed model of the Go `any` values stored in builder maps and lists:
nil, integers, strings, persistent lists (`List` in the Go source) and Go
slices. -/
inductive Val where
  | vNil
  | vInt (n : Int)
  | vStr (s : String)
  | vList (l : List Val)
  | vSlice (l : List Val)

/-- FNV-1a offset basis (map.go `offset64`). -/
def offset64 : Nat := 14695981039346656037

/-- FNV-1a prime (map.go `prime64`). -/
def prime64 : Nat := 1099511628211

/-- map.go `hashKey`: 64-bit FNV-1a accumulation over the key's codepoints.
`hash ^= codepoint; hash *= prime64` with wraparound modelled as `% 2 ^ 64`. -/
def hashKey (key : String) : Nat :=
  key.data.foldl (fun h c => ((h ^^^ c.toNat) * prime64) % (2 ^ 64)) offset64

/-- map.go `childCount`: fixed arity of the hash-partitioned tree. -/
def childCount : Nat := 2

/-- map.go `shiftSize`: hash bits consumed per level. -/
def shiftSize : Nat := 3

/-- map.go `tree`.  Children in Go are pointers, and the code distinguishes a
nil pointer from a pointer to the shared sentinel `nilTree`; `goNil` models the
Go nil pointer and `nil` models the sentinel.  A node holds the subtree element
count, the key's hash, the key, the value, and two child links. -/
inductive Tree where
  | goNil
  | nil
  | node (count : Nat) (hash : Nat) (key : String) (value : Val) (c0 c1 : Tree)

/-- map.go `IsNil`: pointer equality with the shared sentinel `nilTree`
(false on a Go nil pointer, since a nil pointer is not the sentinel). -/
def Tree.IsNil : Tree → Bool
  | .nil => true
  | _ => false

/-- map.go `Size`: 0 for a nil pointer or the sentinel, else the cached count. -/
def Tree.size : Tree → Nat
  | .goNil => 0
  | .nil => 0
  | .node c _ _ _ _ _ => c

/-- The Go test `t == nil` on a child pointer. -/
def Tree.isGoNil : Tree → Bool
  | .goNil => true
  | _ => false

/-- map.go `setLowLevel`.  An empty tree (nil pointer or sentinel) becomes a
fresh single-element leaf whose child slots are Go nil pointers (`m := &tree{}`).
If the hashes differ the node is cloned, the child selected by
`partialHash % childCount` is updated (a nil child is replaced by a fresh leaf
directly), and the count is recomputed from the children (`recalculateCount`).
If the hashes match the clone's value is replaced in place. -/
def setLowLevel (self : Tree) (pHash hash : Nat) (key : String) (value : Val) : Tree :=
  match self with
  | .goNil => .node 1 hash key value .goNil .goNil
  | .nil => .node 1 hash key value .goNil .goNil
  | .node count h k v c0 c1 =>
    if hash ≠ h then
      if pHash % childCount = 0 then
        let newChild :=
          if c0.isGoNil then Tree.node 1 hash key value .goNil .goNil
          else setLowLevel c0 (pHash / 2 ^ shiftSize) hash key value
        .node (newChild.size + c1.size + 1) h k v newChild c1
      else
        let newChild :=
          if c1.isGoNil then Tree.node 1 hash key value .goNil .goNil
          else setLowLevel c1 (pHash / 2 ^ shiftSize) hash key value
        .node (c0.size + newChild.size + 1) h k v c0 newChild
    else
      .node count h k value c0 c1

/-- map.go `Set`: note the initial partial hash passed is `0`, not the hash. -/
def Tree.set (t : Tree) (key : String) (value : Val) : Tree :=
  setLowLevel t 0 (hashKey key) key value

/-- map.go `lookupLowLevel`.  Walks the child selected by
`partialHash % childCount` while the hashes differ; a nil child means
not-found; a hash match returns the stored value. -/
def lookupLowLevel (self : Tree) (pHash hash : Nat) : Option Val :=
  match self with
  | .goNil => none
  | .nil => none
  | .node _ h _ v c0 c1 =>
    if hash ≠ h then
      if pHash % childCount = 0 then
        if c0.isGoNil then none
        else lookupLowLevel c0 (pHash / 2 ^ shiftSize) hash
      else
        if c1.isGoNil then none
        else lookupLowLevel c1 (pHash / 2 ^ shiftSize) hash
    else some v

/-- map.go `Lookup`: like `Set`, the initial partial hash is `0`. -/
def Tree.lookup (t : Tree) (key : String) : Option Val :=
  lookupLowLevel t 0 (hashKey key)

/-- map.go `deleteLeftmost`: returns the deleted node and the remaining tree.
A leaf (size 1) is returned with the sentinel as remainder; otherwise the first
child that is neither a nil pointer nor the sentinel is recursed into and the
clone's count recomputed.  `none` models the Go panic paths (a non-leaf with no
usable child, or a call on a nil pointer, which dereferences nil). -/
def deleteLeftmost : Tree → Option (Tree × Tree)
  | .goNil => none
  | .nil => none
  | .node count h k v c0 c1 =>
    if count = 1 then some (.node count h k v c0 c1, .nil)
    else
      match c0 with
      | .node cc ch ck cv cl cr =>
        match deleteLeftmost (.node cc ch ck cv cl cr) with
        | none => none
        | some (deleted, child) =>
          some (deleted, .node (child.size + c1.size + 1) h k v child c1)
      | _ =>
        match c1 with
        | .node cc ch ck cv cl cr =>
          match deleteLeftmost (.node cc ch ck cv cl cr) with
          | none => none
          | some (deleted, child) =>
            some (deleted, .node (c0.size + child.size + 1) h k v c0 child)
        | _ => none

/-- map.go `deleteLowLevel`.  On an empty tree reports not-found.  While the
hashes differ, recurses into the child selected by `partialHash % childCount`
(a nil child means not-found; a not-found child result is propagated with the
tree unchanged).  On a hash match a leaf collapses to the sentinel; otherwise
the largest child (ties to slot 0) has its leftmost element extracted and
promoted into the vacated position, counts recomputed.  `none` models panics. -/
def deleteLowLevel (self : Tree) (pHash hash : Nat) : Option (Tree × Bool) :=
  match self with
  | .goNil => some (.goNil, false)
  | .nil => some (.nil, false)
  | .node count h k v c0 c1 =>
    if hash ≠ h then
      if pHash % childCount = 0 then
        match c0 with
        | .goNil => some (.node count h k v c0 c1, false)
        | t =>
          match deleteLowLevel t (pHash / 2 ^ shiftSize) hash with
          | none => none
          | some (child, found) =>
            if found then some (.node (child.size + c1.size + 1) h k v child c1, true)
            else some (.node count h k v c0 c1, false)
      else
        match c1 with
        | .goNil => some (.node count h k v c0 c1, false)
        | t =>
          match deleteLowLevel t (pHash / 2 ^ shiftSize) hash with
          | none => none
          | some (child, found) =>
            if found then some (.node (c0.size + child.size + 1) h k v c0 child, true)
            else some (.node count h k v c0 c1, false)
    else
      if count = 1 then some (.nil, true)
      else
        match (if c1.size > c0.size then deleteLeftmost c1 else deleteLeftmost c0) with
        | none => none
        | some (replacement, child) =>
          match replacement with
          | .node _ rh rk rv _ _ =>
            if c1.size > c0.size then
              some (.node (c0.size + child.size + 1) rh rk rv c0 child, true)
            else
              some (.node (child.size + c1.size + 1) rh rk rv child c1, true)
          | _ => none

/-- map.go `Delete`: note the initial partial hash passed is the full hash,
unlike `Set` and `Lookup` which pass `0`. -/
def Tree.delete (t : Tree) (key : String) : Option Tree :=
  match deleteLowLevel t (hashKey key) (hashKey key) with
  | none => none
  | some (m, _) => some m

/-- Checks that no reachable child slot of any node holds a Go nil pointer,
i.e. that every unpopulated slot holds the sentinel, as the comment on
map.go's `init` claims for all map nodes. -/
def childSlotsSentinel : Tree → Bool
  | .goNil => true
  | .nil => true
  | .node _ _ _ _ c0 c1 =>
    (match c0 with | .goNil => false | _ => true)
    && (match c1 with | .goNil => false | _ => true)
    && childSlotsSentinel c0 && childSlotsSentinel c1

/-- Model of list.go's persistent `List` (values only; the cached `depth`
counter always equals the chain length, since `nilList` has depth 0 and `Cons`
stores `tail.depth + 1`). -/
abbrev PList := List Val

/-- list.go `Cons`: prepend. -/
def PList.cons (tail : PList) (val : Val) : PList := val :: tail

/-- list.go `Head`: panics (modelled as `Except.error` with the panic message)
on the empty list, else returns the node's value. -/
def PList.headE : PList → Except String Val
  | [] => .error "Called Head() on an empty list"
  | v :: _ => .ok v

/-- list.go `Tail`: panics on the empty list, else returns the remainder. -/
def PList.tailE : PList → Except String PList
  | [] => .error "Called Tail() on an empty list"
  | _ :: t => .ok t

/-- builder.go `listToSlice`: the loop fills slice positions from the back
(`for i := size - 1; i >= 0; i--`) with successive heads, so the slice is the
reversal of the chain. -/
def listToSlice : PList → List Val
  | [] => []
  | h :: t => listToSlice t ++ [h]

/-- The list read by builder.go `ExtendValues` before prepending: the value
stored under `name`, treated as the empty list when absent or not a list. -/
def storedListAt (m : Tree) (name : String) : PList :=
  match m.lookup name with
  | some (.vList l) => l
  | _ => []

/-- builder.go `ExtendValues`: read the current list under `name`, prepend
(`Cons`) every incoming value in order, and store the result back. -/
def ExtendValues (m : Tree) (name : String) (vs : List Val) : Tree :=
  m.set name (.vList (vs.foldl PList.cons (storedListAt m name)))

/-- builder.go `Append`: delegates to `ExtendValues` with the variadic values. -/
def Append (m : Tree) (name : String) (v : Val) : Tree := ExtendValues m name [v]

/-- builder.go `Get`: look the name up, materializing a stored persistent list
into a slice via `listToSlice` (the registry only refines the slice's Go
element type, not its contents). -/
def Get (m : Tree) (name : String) : Option Val :=
  match m.lookup name with
  | some (.vList l) => some (.vSlice (listToSlice l))
  | some v => some v
  | none => none

/-- A sequence of single-value `Append` calls under one name. -/
def appendAll (m : Tree) (name : String) (vs : List Val) : Tree :=
  vs.foldl (fun acc v => Append acc name v) m

/-- go/ast `IsExported`: the first character is uppercase. -/
def isExported (name : String) : Bool :=
  match name.data with
  | [] => false
  | c :: _ => c.isUpper

/-- Go types of record fields carried by the registered struct types: int,
string, the empty interface (`any`), and a typed slice. -/
inductive FieldTy where
  | tInt
  | tStr
  | tAny
  | tSlice (elem : FieldTy)

/-- reflect assignability of a stored value's dynamic type to a declared field
type: `field.Set` — and each element write inside `listToSlice` — panics when
this is false. -/
def assignable : FieldTy → Val → Bool
  | .tInt, .vInt _ => true
  | .tStr, .vStr _ => true
  | .tAny, _ => true
  | .tSlice e, .vSlice l => l.all (assignable e)
  | _, _ => false

/-- A record (struct) type: field names with their declared types, in order. -/
abbrev StructTy := List (String × FieldTy)

/-- A record (struct) value: named fields with their current values. -/
abbrev StructVal := List (String × Val)

/-- The zero value of a field type (`reflect.New(structType).Elem()` yields a
zero-valued record; the zero of `any` and of a slice is nil). -/
def zeroVal : FieldTy → Val
  | .tInt => .vInt 0
  | .tStr => .vStr ""
  | .tAny => .vNil
  | .tSlice _ => .vNil

/-- The zero-valued record of a struct type. -/
def zeroStruct (ty : StructTy) : StructVal :=
  ty.map (fun f => (f.1, zeroVal f.2))

/-- reflect `FieldByName` on the registered struct type: the declared type of
the named field when the record has one (`field.IsValid()`). -/
def fieldTyLookup (ty : StructTy) (name : String) : Option FieldTy :=
  match ty.find? (fun f => f.1 = name) with
  | none => none
  | some f => some f.2

/-- reflect `field.Set`: write the named field of the record.  `scanFieldStep`
checks assignability first and surfaces the reflect panic otherwise. -/
def setField (sv : StructVal) (name : String) (v : Val) : StructVal :=
  sv.map (fun f => if f.1 = name then (f.1, v) else f)

/-- map.go `ForEach` visit order: the node itself, then its children in slot
order, skipping nil pointers and the sentinel. -/
def Tree.entries : Tree → List (String × Val)
  | .goNil => []
  | .nil => []
  | .node _ _ k v c0 c1 => (k, v) :: (c0.entries ++ c1.entries)

/-- builder.go `listToSlice` called with a target field type
(`listToSlice(list, field.Type())` in `scanStruct`): `reflect.MakeSlice`
panics (`none`) when the field type is not a slice type, and the per-element
`slice.Index(i).Set` panics when an element is not assignable to the element
type; otherwise the backward fill reverses the chain. -/
def listToSliceT (l : PList) : FieldTy → Option Val
  | .tSlice e => if l.all (assignable e) then some (.vSlice (listToSlice l)) else none
  | _ => none

/-- One entry of builder.go `scanStruct`'s ForEach body: an exported stored
name whose field exists on the record is copied into that field; a stored
persistent list is first materialized against the field's declared type.  A
list hitting a non-slice field, or a value not assignable to its field, is a
reflect panic (the FieldAssignmentError class), modelled as `Except.error`. -/
def scanFieldStep (ty : StructTy) (sv : StructVal) (name : String) (val : Val) :
    Except String StructVal :=
  if isExported name then
    match fieldTyLookup ty name with
    | none => .ok sv
    | some ft =>
      match val with
      | .vList l =>
        match listToSliceT l ft with
        | none => .error "reflect: cannot materialize stored list into field"
        | some v2 => .ok (setField sv name v2)
      | v =>
        if assignable ft v then .ok (setField sv name v)
        else .error "reflect.Value.Set: value of wrong type"
  else .ok sv

/-- builder.go `scanStruct`'s ForEach loop over the stored entries; a reflect
panic aborts the scan. -/
def scanFieldsE (ty : StructTy) : List (String × Val) → StructVal → Except String StructVal
  | [], sv => .ok sv
  | e :: rest, sv =>
    match scanFieldStep ty sv e.1 e.2 with
    | .error msg => .error msg
    | .ok sv2 => scanFieldsE ty rest sv2

/-- builder.go `scanStruct` on a builder's map. -/
def scanStructE (m : Tree) (ty : StructTy) (sv : StructVal) : Except String StructVal :=
  scanFieldsE ty m.entries sv

/-- registry_impl.go `BuilderTypes`: the process-wide registry, modelled as an
association from builder shape name to the registered struct type. -/
abbrev Registry := List (String × StructTy)

/-- registry_impl.go `GetBuilderStructType`: `nil` (none) when unregistered. -/
def GetBuilderStructType (reg : Registry) (shape : String) : Option StructTy :=
  match reg.find? (fun e => e.1 = shape) with
  | none => none
  | some e => some e.2

/-- builder.go `GetStruct`: returns `nil` (`.ok none`) when the builder's
shape has no registered struct type (`NewBuilderStruct` returns nil);
otherwise a fresh zero record populated by `scanStruct`, whose reflect panics
surface as `Except.error`. -/
def GetStruct (reg : Registry) (shape : String) (m : Tree) :
    Except String (Option StructVal) :=
  match GetBuilderStructType reg shape with
  | none => .ok none
  | some ty =>
    match scanStructE m ty (zeroStruct ty) with
    | .error msg => .error msg
    | .ok sv => .ok (some sv)

/-- Render-path errors.  `arity` is the TemplateArityError
("expr: not enough arguments for placeholders"); `custom` stands for any other
error value surfaced by a fragment (e.g. a consumer-level
ConflictingClauseError), carried so propagation can be observed. -/
inductive Err where
  | arity
  | custom (msg : String)

mutual

/-- n1qlizer.go fragment forms used by the render claims: `expr` (a template
with an argument list), `alias` (aliasExpr), `and`/`or` (the And/Or slices),
and `fail e`, which models an arbitrary external `N1qlizer` implementation
whose `ToN1ql` returns `("", nil, err)` — the N1qlizer interface is open, so a
child can surface any error value. -/
inductive Frag where
  | expr (sql : String) (args : List Arg)
  | alias (e : Frag) (al : String)
  | and (parts : List Frag)
  | or (parts : List Frag)
  | fail (e : Err)

/-- An element of a Go `[]interface{}` argument list: a plain value or a
nested fragment (an argument that implements N1qlizer). -/
inductive Arg where
  | val (v : Val)
  | frag (f : Frag)

end

/-- The `arg.(N1qlizer)` type assertion on an argument. -/
def Arg.isFrag : Arg → Bool
  | .frag _ => true
  | .val _ => false

/-- `strings.Count(e.sql, "?")`: the number of `?` characters (a doubled `??`
counts as two). -/
def countQ (s : String) : Nat := s.data.count '?'

mutual

/-- n1qlizer.go `ToN1ql` for the fragment forms above.  For `expr`: error with
the arity error when the `?` count exceeds the argument count; if no argument
is a fragment return the template and arguments as-is; otherwise run the
substitution loop.  `alias` renders its child as `"(child) AS alias"`.
`and`/`or` delegate to `andOrToN1ql`. -/
def toN1ql : Frag → Except Err (String × List Arg)
  | .fail e => .error e
  | .expr sql args =>
    if countQ sql > args.length then .error .arity
    else if args.any Arg.isFrag then exprSubstLoop sql.data args "" []
    else .ok (sql, args)
  | .alias f al =>
    match toN1ql f with
    | .error e => .error e
    | .ok (s, a) => .ok ("(" ++ s ++ ") AS " ++ al, a)
  | .and parts => andOrToN1ql parts "AND"
  | .or parts => andOrToN1ql parts "OR"
termination_by f => 2 * sizeOf f
decreasing_by
  all_goals simp_wf
  all_goals try rcases sql with ⟨d⟩
  all_goals try simp_arith
  all_goals try omega

/-- n1qlizer.go `andOrToN1ql`: empty input renders to `("", nil)`; a single
element renders as itself; otherwise all elements are rendered in order
(collected by `andOrCollect`, the loop body of the Go function), empty
renderings are skipped, and the rest joined as `"(a SEP b SEP ...)"`. -/
def andOrToN1ql (ex : List Frag) (sep : String) : Except Err (String × List Arg) :=
  match ex with
  | [] => .ok ("", [])
  | [f] => toN1ql f
  | g :: gs =>
    match andOrCollect (g :: gs) with
    | .error e => .error e
    | .ok (parts, args) =>
      if parts.length = 0 then .ok ("", args)
      else .ok ("(" ++ String.intercalate (" " ++ sep ++ " ") parts ++ ")", args)
termination_by 2 * sizeOf ex + 1
decreasing_by
  all_goals simp_wf
  all_goals try simp_arith
  all_goals try omega

/-- The collection loop of n1qlizer.go `andOrToN1ql`: render each element,
return the first error immediately, keep non-empty texts and their arguments
in order. -/
def andOrCollect (ex : List Frag) : Except Err (List String × List Arg) :=
  match ex with
  | [] => .ok ([], [])
  | f :: fs =>
    match toN1ql f with
    | .error e => .error e
    | .ok (s, a) =>
      match andOrCollect fs with
      | .error e => .error e
      | .ok (parts, args) =>
        if s = "" then .ok (parts, args)
        else .ok (s :: parts, a ++ args)
termination_by 2 * sizeOf ex
decreasing_by
  all_goals simp_wf
  all_goals try simp_arith
  all_goals try omega

/-- The nested-substitution loop of n1qlizer.go `expr.ToN1ql`: copy non-marker
characters; at each `?` consume the next argument — if it is a fragment,
render it (propagating its error) and splice its text and arguments in place
of the marker, otherwise keep the marker and append the plain value; error
with the arity message when the arguments run out. -/
def exprSubstLoop : List Char → List Arg → String → List Arg → Except Err (String × List Arg)
  | [], _, buf, newArgs => .ok (buf, newArgs)
  | c :: rest, args, buf, newArgs =>
    if c = '?' then
      match args with
      | [] => .error .arity
      | a :: args2 =>
        match a with
        | .frag f =>
          match toN1ql f with
          | .error e => .error e
          | .ok (nsql, nargs) => exprSubstLoop rest args2 (buf ++ nsql) (newArgs ++ nargs)
        | .val _ => exprSubstLoop rest args2 (buf.push '?') (newArgs ++ [a])
    else
      exprSubstLoop rest args (buf.push c) newArgs
termination_by chars args _ _ => 2 * sizeOf args + sizeOf chars
decreasing_by
  all_goals simp_wf
  all_goals try simp_arith
  all_goals try omega

end

/-- n1qlizer.go `buildClauses` loop: render each part in order, return the
error at the first failing part (the buffer keeps what was already written,
and no arguments are returned), write `sep` before a non-empty rendering when
the part's index is positive and `sep` is non-empty, and append the part's
arguments.  The first component is the content of the caller's buffer. -/
def buildClausesAux (sep : String) :
    List Frag → Nat → String → List Arg → String × Except Err (List Arg)
  | [], _, sql, args => (sql, .ok args)
  | p :: ps, i, sql, args =>
    match toN1ql p with
    | .error e => (sql, .error e)
    | .ok (partSQL, partArgs) =>
      if partSQL.length > 0 then
        buildClausesAux sep ps (i + 1)
          ((if 0 < i ∧ 0 < sep.length then sql ++ sep else sql) ++ partSQL)
          (args ++ partArgs)
      else
        buildClausesAux sep ps (i + 1) sql args

/-- n1qlizer.go `buildClauses`: the Go function takes the caller's buffer and
argument slice and returns the extended arguments or an error. -/
def buildClauses (parts : List Frag) (sql : String) (sep : String) (args : List Arg) :
    String × Except Err (List Arg) :=
  buildClausesAux sep parts 0 sql args

/-- Modelled from the amended claim's words (refinement reference for C2):
render texts in order, skip empty texts, and emit the separator before every
non-empty text whose index in the original list is positive (when the
separator is non-empty). -/
def specJoinAux (sep : String) : List String → Nat → String
  | [], _ => ""
  | t :: ts, i =>
    (if t = "" then "" else (if 0 < i ∧ 0 < sep.length then sep else "") ++ t)
      ++ specJoinAux sep ts (i + 1)

/-- Modelled from the amended claim's words: the joined text of `specJoinAux`
starting at index 0. -/
def specJoin (sep : String) (texts : List String) : String := specJoinAux sep texts 0

/-- Modelled from the amended claim's words: the number of separators emitted
is the number of non-empty texts at positions ≥ 1. -/
def specSepCount (texts : List String) : Nat :=
  ((texts.drop 1).filter (fun t => t != "")).length

/-- n1qlizer.go `replacePositionalPlaceholders` scan, on the character list:
a doubled `??` becomes a literal `?` without consuming an index; a single `?`
becomes `prefix(i+1)` and increments the index; other characters are copied. -/
def rppAux (pre : String) : List Char → Nat → String
  | [], _ => ""
  | c :: rest, i =>
    if c = '?' then
      match rest with
      | r :: rest2 =>
        if r = '?' then "?" ++ rppAux pre rest2 i
        else pre ++ toString (i + 1) ++ rppAux pre (r :: rest2) (i + 1)
      | [] => pre ++ toString (i + 1)
    else String.singleton c ++ rppAux pre rest i
termination_by l _ => l.length
decreasing_by all_goals simp_arith

/-- n1qlizer.go `replacePositionalPlaceholders` (the Go error return is always
nil).  The `Dollar` format calls this with prefix `"$"`. -/
def replacePositionalPlaceholders (sql pre : String) : String :=
  rppAux pre sql.data 0

/-- The Go `any`-typed first parameter of n1qlizer.go `Expr`: a string, a
value already implementing N1qlizer, or any other value. -/
inductive ExprArg where
  | str (s : String)
  | frag (f : Frag)
  | other (v : Val)

/-- `fmt.Sprintf("%v", sql)` on a plain value: decimal for integers, the
string itself for strings.  The aggregate cases are schematic renderings of
Go's default formatting and are not exercised by any claim. -/
def sprintfV : Val → String
  | .vNil => "<nil>"
  | .vInt n => toString n
  | .vStr s => s
  | .vList _ => "&{}"
  | .vSlice _ => "[]"

/-- n1qlizer.go `Expr`: a string first argument builds an `expr` fragment
binding the arguments; a non-string that implements N1qlizer is returned
itself (the extra arguments are dropped); any other value is formatted with
`%v` and an `expr` fragment is built from it, also binding the arguments. -/
def Expr (sql : ExprArg) (args : List Arg) : Frag :=
  match sql with
  | .str s => .expr s args
  | .frag f => f
  | .other v => .expr (sprintfV v) args

end N1qlizer

namespace N1qlizer

/-- The nil-pointer special case in `setLowLevel` agrees with recursing: a nil
child and the sentinel both produce the same fresh leaf. -/
theorem setChild_nilCheck (t : Tree) (ph h : Nat) (k : String) (v : Val) :
    (if t.isGoNil then Tree.node 1 h k v .goNil .goNil
     else setLowLevel t ph h k v) = setLowLevel t ph h k v := by
  cases t <;> rfl

/-- The nil-pointer special case in `lookupLowLevel` agrees with recursing:
looking up in a nil child and in the sentinel both report not-found. -/
theorem lookupChild_nilCheck (t : Tree) (ph h : Nat) :
    (if t.isGoNil then none else lookupLowLevel t ph h) = lookupLowLevel t ph h := by
  cases t <;> rfl

/-- `setLowLevel` never returns a Go nil pointer. -/
theorem setLowLevel_not_goNil (t : Tree) (ph h : Nat) (k : String) (v : Val) :
    (setLowLevel t ph h k v).isGoNil = false := by
  cases t with
  | goNil => rfl
  | nil => rfl
  | node count h' k' v' c0 c1 =>
    by_cases hh : h = h'
    · simp [setLowLevel, hh, Tree.isGoNil]
    · by_cases hp : ph % childCount = 0 <;>
        simp [setLowLevel, hh, hp, Tree.isGoNil]

/-- `lookupLowLevel` after `setLowLevel` with the same partial hash and hash
always finds the just-set value (both walk the same child spine). -/
theorem lookup_setLowLevel (t : Tree) (ph h : Nat) (k : String) (v : Val) :
    lookupLowLevel (setLowLevel t ph h k v) ph h = some v := by
  induction t generalizing ph with
  | goNil => simp [setLowLevel, lookupLowLevel]
  | nil => simp [setLowLevel, lookupLowLevel]
  | node count h' k' v' c0 c1 ih0 ih1 =>
    by_cases hh : h = h'
    · subst hh
      simp [setLowLevel, lookupLowLevel]
    · by_cases hp : ph % childCount = 0
      · rw [setLowLevel]
        simp only [hh, hp, ne_eq, not_false_iff, if_true, ite_true, ite_false,
          if_false, if_neg, not_false_eq_true]
        rw [setChild_nilCheck]
        rw [lookupLowLevel]
        simp only [hh, hp, ne_eq, not_false_iff, ite_true, ite_false]
        rw [lookupChild_nilCheck]
        exact ih0 (ph / 2 ^ shiftSize)
      · rw [setLowLevel]
        simp only [hh, hp, ne_eq, not_false_iff, if_true, ite_true, ite_false,
          if_false, if_neg, not_false_eq_true]
        rw [setChild_nilCheck]
        rw [lookupLowLevel]
        simp only [hh, hp, ne_eq, not_false_iff, ite_true, ite_false]
        rw [lookupChild_nilCheck]
        exact ih1 (ph / 2 ^ shiftSize)

/-- C1: set followed by lookup on the same key always returns the just-set
value with found = true.  But delete followed by lookup does NOT always return
found = false: after `Set("a",1); Set("b",2)`, `Delete("b")` returns the map
unchanged (its descent uses the full hash as the initial partial hash while
`Set`/`Lookup` use 0, so it looks in the wrong child and reports not-found),
and the subsequent `Lookup("b")` still returns value 2 with found = true. -/
theorem c1_set_lookup_roundTrip_and_delete_misses :
    (∀ (t : Tree) (k : String) (v : Val), (t.set k v).lookup k = some v)
    ∧ ((Tree.nil.set "a" (.vInt 1)).set "b" (.vInt 2)).delete "b"
        = some ((Tree.nil.set "a" (.vInt 1)).set "b" (.vInt 2))
    ∧ (((Tree.nil.set "a" (.vInt 1)).set "b" (.vInt 2)).lookup "b" = some (.vInt 2)) := by
  refine ⟨fun t k v => lookup_setLowLevel t 0 (hashKey k) k v, by rfl, by rfl⟩

/-- C8: the map node created by a `Set` on the empty map has Go nil pointers in
both child slots, not the shared empty sentinel, contradicting the sentinel
invariant (and the comment on map.go's `init`). -/
theorem c8_set_creates_nil_children :
    childSlotsSentinel (Tree.nil.set "a" (.vInt 1)) = false
    ∧ Tree.nil.set "a" (.vInt 1) = .node 1 (hashKey "a") "a" (.vInt 1) .goNil .goNil := by
  exact ⟨rfl, rfl⟩

/-- C9: `Head` and `Tail` fail with the EmptyAccess panic exactly when the
sequence is empty; on a sequence built by a prepend, `Head` returns the most
recently prepended value and `Tail` the remainder. -/
theorem c9_head_tail_empty_access :
    (∀ l : PList, (∃ msg, l.headE = .error msg) ↔ l = [])
    ∧ (∀ l : PList, (∃ msg, l.tailE = .error msg) ↔ l = [])
    ∧ (∀ (l : PList) (v : Val), (l.cons v).headE = .ok v ∧ (l.cons v).tailE = .ok l) := by
  refine ⟨fun l => ?_, fun l => ?_, fun l v => ⟨rfl, rfl⟩⟩
  · cases l with
    | nil => simp [PList.headE]
    | cons a t => simp [PList.headE]
  · cases l with
    | nil => simp [PList.tailE]
    | cons a t => simp [PList.tailE]

/-- The backward-filling slice conversion is list reversal. -/
theorem listToSlice_eq_reverse (l : PList) : listToSlice l = l.reverse := by
  induction l with
  | nil => rfl
  | cons h t ih => simp [listToSlice, ih]

/-- `Tree.lookup` after `Tree.set` on the same key finds the just-set value. -/
theorem lookup_set_self (t : Tree) (k : String) (v : Val) :
    (t.set k v).lookup k = some v :=
  lookup_setLowLevel t 0 (hashKey k) k v

/-- Appending values one at a time conses them, in order, onto the stored
persistent list under the name. -/
theorem lookup_appendAll (name : String) (vs : List Val) :
    ∀ (m : Tree) (l : PList), m.lookup name = some (.vList l) →
      (appendAll m name vs).lookup name = some (.vList (vs.reverse ++ l)) := by
  induction vs with
  | nil => intro m l h; simpa [appendAll] using h
  | cons v vs ih =>
    intro m l h
    have hstep : (Append m name v).lookup name = some (.vList (v :: l)) := by
      have : storedListAt m name = l := by simp [storedListAt, h]
      simp [Append, ExtendValues, this, PList.cons, lookup_set_self]
    have := ih (Append m name v) (v :: l) hstep
    simpa [appendAll, List.foldl_cons] using this

/-- C3 (amended): starting from any builder in which the name is unset (or not
holding a list), a sequence of `Append` calls yields, via `Get`, the values in
first-appended-first order, despite the prepend-based internal storage; and
over an existing stored list the appended values still come out in append
order, after the pre-existing elements. -/
theorem c3_append_order_preserved (m : Tree) (name : String) (v : Val) (vs : List Val) :
    (storedListAt m name = [] →
      Get (appendAll m name (v :: vs)) name = some (.vSlice (v :: vs)))
    ∧ (∀ l : PList, m.lookup name = some (.vList l) →
      Get (appendAll m name vs) name = some (.vSlice (listToSlice l ++ vs))) := by
  constructor
  · intro h0
    have hstep : (Append m name v).lookup name = some (.vList [v]) := by
      simp [Append, ExtendValues, h0, PList.cons, lookup_set_self]
    have := lookup_appendAll name vs (Append m name v) [v] hstep
    have hres : (appendAll m name (v :: vs)).lookup name
        = some (.vList (vs.reverse ++ [v])) := by
      simpa [appendAll, List.foldl_cons] using this
    simp [Get, hres, listToSlice_eq_reverse]
  · intro l hl
    have := lookup_appendAll name vs m l hl
    simp [Get, this, listToSlice_eq_reverse]

/-- C3 witness: the spec scenario itself.  `Append(b,"X",1)` then
`Append(result,"X",2)` then `Get(result,"X")` on a builder with "X" unset
yields the ordered collection [1, 2]. -/
theorem c3_append_order_preserved_witness :
    storedListAt Tree.nil "X" = []
    ∧ Get (appendAll Tree.nil "X" [.vInt 1, .vInt 2]) "X"
        = some (.vSlice [.vInt 1, .vInt 2]) :=
  ⟨rfl, (c3_append_order_preserved Tree.nil "X" (.vInt 1) [.vInt 2]).1 rfl⟩

/-- C3 counterexample: the claim says that for EVERY builder b, appending 1
then 2 under "X" makes `Get` yield exactly [1, 2]; but on a builder that
already stores a list under "X" (here one built by `Append(empty,"X",0)`) the
result is [0, 1, 2], not [1, 2]. -/
theorem c3_every_builder_counterexample :
    Get (Append (Append (Append Tree.nil "X" (.vInt 0)) "X" (.vInt 1)) "X" (.vInt 2)) "X"
      = some (.vSlice [.vInt 0, .vInt 1, .vInt 2])
    ∧ ¬ ([Val.vInt 0, .vInt 1, .vInt 2] = [Val.vInt 1, .vInt 2]) := by
  exact ⟨rfl, by simp⟩

/-- A string has positive length exactly when it is non-empty, relating the Go
`len(s) > 0` test to "renders to empty text". -/
theorem string_length_pos_iff (s : String) : 0 < s.length ↔ s ≠ "" := by
  rcases s with ⟨d⟩
  cases d <;> simp [String.length, String.ext_iff]

/-- C4: the "$N" strategy turns `"a ? b ?? c ?"` into `"a $1 b ? c $2"`; text
without markers is copied unchanged; a doubled marker becomes a single literal
marker without consuming an index. -/
theorem c4_renumbered_placeholder_finalization :
    replacePositionalPlaceholders "a ? b ?? c ?" "$" = "a $1 b ? c $2"
    ∧ (∀ (s : List Char) (i : Nat), (∀ c ∈ s, c ≠ '?') → rppAux "$" s i = String.mk s)
    ∧ (∀ (rest : List Char) (i : Nat),
        rppAux "$" ('?' :: '?' :: rest) i = "?" ++ rppAux "$" rest i) := by
  refine ⟨by simp [replacePositionalPlaceholders, rppAux]; rfl, ?_, fun rest i => by
    simp [rppAux]⟩
  intro s
  induction s with
  | nil =>
    intro i h
    simp only [rppAux]
  | cons c rest ih =>
    intro i h
    have hc : c ≠ '?' := h c (List.mem_cons_self c rest)
    have hrest := ih (i := i) fun x hx => h x (List.mem_cons_of_mem c hx)
    cases rest with
    | nil =>
      rw [rppAux.eq_3, if_neg hc, rppAux.eq_1]
      rfl
    | cons r rest2 =>
      rw [rppAux.eq_2, if_neg hc, hrest]
      rfl

/-- C4 witness: marker-free text ("ab") is copied unchanged by the scan. -/
theorem c4_renumbered_placeholder_finalization_witness :
    rppAux "$" [Char.ofNat 97, Char.ofNat 98] 0 = String.mk [Char.ofNat 97, Char.ofNat 98] :=
  c4_renumbered_placeholder_finalization.2.1 [Char.ofNat 97, Char.ofNat 98] 0 (by decide)

/-- C10 counterexample: the claim says only a string first argument creates a
new fragment binding the supplied arguments, but a first argument that is
neither a string nor a fragment (here the plain integer 42) also creates a new
`expr` fragment, from its `%v` formatting, binding the supplied argument. -/
theorem c10_nonstring_nonfragment_counterexample :
    Expr (.other (.vInt 42)) [.val (.vStr "x")] = .expr "42" [.val (.vStr "x")]
    ∧ ExprArg.other (.vInt 42) ≠ ExprArg.str "42" :=
  ⟨rfl, fun h => ExprArg.noConfusion h⟩

/-- C10 (amended): a first argument that already implements the render
contract is returned itself with any extra arguments silently discarded; a
string first argument builds a fragment binding the arguments to the template;
any other first argument builds a fragment from its `%v` formatting, likewise
binding the supplied arguments. -/
theorem c10_expr_dispatch :
    (∀ (f : Frag) (args : List Arg), Expr (.frag f) args = f)
    ∧ (∀ (s : String) (args : List Arg), Expr (.str s) args = .expr s args)
    ∧ (∀ (v : Val) (args : List Arg), Expr (.other v) args = .expr (sprintfV v) args) :=
  ⟨fun _ _ => rfl, fun _ _ => rfl, fun _ _ => rfl⟩

/-- When the remaining marker count does not exceed the remaining argument
count and every fragment argument renders successfully, the substitution loop
of `expr.ToN1ql` succeeds. -/
theorem exprSubstLoop_ok (chars : List Char) :
    ∀ (args : List Arg) (buf : String) (acc : List Arg),
      chars.count '?' ≤ args.length →
      (∀ f, Arg.frag f ∈ args → ∃ r, toN1ql f = .ok r) →
      ∃ r, exprSubstLoop chars args buf acc = .ok r := by
  induction chars with
  | nil =>
    intro args buf acc h1 h2
    exact ⟨(buf, acc), by simp [exprSubstLoop]⟩
  | cons c rest ih =>
    intro args buf acc h1 h2
    by_cases hc : c = '?'
    · subst hc
      cases args with
      | nil =>
        simp [List.count_cons] at h1
      | cons a args2 =>
        have h1' : rest.count '?' ≤ args2.length := by
          simp [List.count_cons] at h1
          omega
        cases a with
        | frag f =>
          obtain ⟨⟨nsql, nargs⟩, hr⟩ := h2 f (by simp)
          obtain ⟨r2, hr2⟩ := ih args2 (buf ++ nsql) (acc ++ nargs) h1'
            (fun g hg => h2 g (List.mem_cons_of_mem _ hg))
          exact ⟨r2, by simp [exprSubstLoop, hr, hr2]⟩
        | val v =>
          obtain ⟨r2, hr2⟩ := ih args2 (buf.push '?') (acc ++ [Arg.val v]) h1'
            (fun g hg => h2 g (List.mem_cons_of_mem _ hg))
          exact ⟨r2, by simp [exprSubstLoop, hr2]⟩
    · have h1' : rest.count '?' ≤ args.length := by
        simpa [List.count_cons, hc] using h1
      obtain ⟨r2, hr2⟩ := ih args (buf.push c) acc h1' h2
      refine ⟨r2, ?_⟩
      rw [exprSubstLoop.eq_def]
      simp [hc, hr2]

/-- C5: assuming every nested fragment argument renders successfully, an expr
fragment's render fails with the TemplateArityError exactly when the number of
`?` markers in its template exceeds the number of supplied arguments; and a
template with zero markers and zero arguments renders to the literal template
text with an empty argument list. -/
theorem c5_expr_render_arity (sql : String) (args : List Arg)
    (hnested : ∀ f, Arg.frag f ∈ args → ∃ r, toN1ql f = .ok r) :
    (toN1ql (.expr sql args) = .error .arity ↔ countQ sql > args.length)
    ∧ (countQ sql = 0 → args = [] → toN1ql (.expr sql args) = .ok (sql, [])) := by
  have hsucc : countQ sql ≤ args.length → ∃ r, toN1ql (.expr sql args) = .ok r := by
    intro hle
    have hnotgt : ¬ countQ sql > args.length := not_lt.mpr hle
    by_cases hany : args.any Arg.isFrag
    · obtain ⟨r, hr⟩ := exprSubstLoop_ok sql.data args "" [] hle hnested
      exact ⟨r, by simp [toN1ql, hnotgt, hany, hr]⟩
    · exact ⟨(sql, args), by simp [toN1ql, hnotgt, hany]⟩
  refine ⟨⟨?_, ?_⟩, ?_⟩
  · intro herr
    by_contra hgt
    obtain ⟨r, hr⟩ := hsucc (not_lt.mp hgt)
    rw [herr] at hr
    cases hr
  · intro hgt
    simp [toN1ql, hgt]
  · intro h0 hargs
    subst hargs
    simp [toN1ql, h0]

/-- C5 witness: with no arguments, the template "x = ?" errors with the arity
error (1 marker > 0 arguments) and the marker-free template case holds. -/
theorem c5_expr_render_arity_witness :
    ((toN1ql (.expr "x = ?" []) = .error .arity ↔ countQ "x = ?" > ([] : List Arg).length)
      ∧ (countQ "x = ?" = 0 → ([] : List Arg) = [] →
          toN1ql (.expr "x = ?" []) = .ok ("x = ?", []))) :=
  c5_expr_render_arity "x = ?" [] (by simp)

/-- If a fragment argument sits after only plain-value arguments and there are
enough markers to reach it, the substitution loop surfaces that fragment's
error unmodified. -/
theorem exprSubstLoop_frag_error (e : Err) (f : Frag) (hf : toN1ql f = .error e) :
    ∀ (chars : List Char) (vs tail : List Arg) (buf : String) (acc : List Arg),
      (∀ a ∈ vs, a.isFrag = false) →
      vs.length < chars.count '?' →
      exprSubstLoop chars (vs ++ .frag f :: tail) buf acc = .error e := by
  intro chars
  induction chars with
  | nil =>
    intro vs tail buf acc hvs hlt
    simp at hlt
  | cons c rest ih =>
    intro vs tail buf acc hvs hlt
    by_cases hc : c = '?'
    · subst hc
      cases vs with
      | nil => simp [exprSubstLoop, hf]
      | cons w vs2 =>
        have hw : w.isFrag = false := hvs w (by simp)
        cases w with
        | frag g => simp [Arg.isFrag] at hw
        | val v =>
          have hlt' : vs2.length < rest.count '?' := by
            simp [List.count_cons] at hlt
            omega
          have := ih vs2 tail (buf.push '?') (acc ++ [Arg.val v])
            (fun a ha => hvs a (List.mem_cons_of_mem _ ha)) hlt'
          simpa [exprSubstLoop] using this
    · have hlt' : vs.length < rest.count '?' := by
        simpa [List.count_cons, hc] using hlt
      have := ih vs tail (buf.push c) acc hvs hlt'
      rw [exprSubstLoop.eq_def]
      simpa [hc] using this

/-- The collection loop of `andOrToN1ql` returns the first child error. -/
theorem andOrCollect_error (e : Err) (f : Frag) (hf : toN1ql f = .error e) :
    ∀ (xs ys : List Frag), (∀ x ∈ xs, ∃ r, toN1ql x = .ok r) →
      andOrCollect (xs ++ f :: ys) = .error e := by
  intro xs
  induction xs with
  | nil => intro ys hxs; simp [andOrCollect, hf]
  | cons x xs2 ih =>
    intro ys hxs
    obtain ⟨⟨s, a⟩, hx⟩ := hxs x (by simp)
    have hrec := ih ys (fun g hg => hxs g (List.mem_cons_of_mem _ hg))
    simp [andOrCollect, hx, hrec]

/-- The `buildClauses` loop returns the first child error (with no arguments;
the text buffer belongs to the caller). -/
theorem buildClausesAux_error (e : Err) (f : Frag) (hf : toN1ql f = .error e) (sep : String) :
    ∀ (xs : List Frag) (ys : List Frag) (i : Nat) (sql0 : String) (args0 : List Arg),
      (∀ x ∈ xs, ∃ r, toN1ql x = .ok r) →
      (buildClausesAux sep (xs ++ f :: ys) i sql0 args0).2 = .error e := by
  intro xs
  induction xs with
  | nil => intro ys i sql0 args0 hxs; simp [buildClausesAux, hf]
  | cons x xs2 ih =>
    intro ys i sql0 args0 hxs
    obtain ⟨⟨s, a⟩, hx⟩ := hxs x (by simp)
    have hxs2 := fun g hg => hxs g (List.mem_cons_of_mem _ hg)
    by_cases hs : s.length > 0
    · simpa [buildClausesAux, hx, hs] using ih ys (i + 1) _ _ hxs2
    · simpa [buildClausesAux, hx, hs] using ih ys (i + 1) sql0 args0 hxs2

/-- C6: whenever a child fragment's render errors, every composition level —
aliasing, AND/OR combination, clause joining, and nested argument substitution
— returns that same error unmodified; the error result carries no output text
and no arguments. -/
theorem c6_error_propagation :
    (∀ (f : Frag) (al : String) (e : Err), toN1ql f = .error e →
        toN1ql (.alias f al) = .error e)
    ∧ (∀ (xs ys : List Frag) (f : Frag) (sep : String) (e : Err),
        (∀ x ∈ xs, ∃ r, toN1ql x = .ok r) → toN1ql f = .error e →
        andOrToN1ql (xs ++ f :: ys) sep = .error e)
    ∧ (∀ (xs ys : List Frag) (f : Frag) (sql0 sep : String) (args0 : List Arg) (e : Err),
        (∀ x ∈ xs, ∃ r, toN1ql x = .ok r) → toN1ql f = .error e →
        (buildClauses (xs ++ f :: ys) sql0 sep args0).2 = .error e)
    ∧ (∀ (sql : String) (vs tail : List Arg) (f : Frag) (e : Err),
        (∀ a ∈ vs, a.isFrag = false) → toN1ql f = .error e →
        countQ sql ≤ (vs ++ .frag f :: tail).length → vs.length < countQ sql →
        toN1ql (.expr sql (vs ++ .frag f :: tail)) = .error e) := by
  refine ⟨?_, ?_, ?_, ?_⟩
  · intro f al e hf
    simp [toN1ql, hf]
  · intro xs ys f sep e hxs hf
    cases xs with
    | nil =>
      cases ys with
      | nil => simpa [andOrToN1ql] using hf
      | cons y ys2 =>
        have hcol := andOrCollect_error e f hf [] (y :: ys2) (by simp)
        simp only [List.nil_append] at hcol ⊢
        simp [andOrToN1ql, hcol]
    | cons x xs2 =>
      have hcol := andOrCollect_error e f hf (x :: xs2) ys hxs
      rcases hx2 : xs2 ++ f :: ys with _ | ⟨g2, gs2⟩
      · exact absurd hx2 (by simp)
      · have hlist : (x :: xs2) ++ f :: ys = x :: g2 :: gs2 := by simp [hx2]
        rw [hlist] at hcol ⊢
        simp [andOrToN1ql, hcol]
  · intro xs ys f sql0 sep args0 e hxs hf
    exact buildClausesAux_error e f hf sep xs ys 0 sql0 args0 hxs
  · intro sql vs tail f e hvs hf hle hlen
    have hany : (vs ++ Arg.frag f :: tail).any Arg.isFrag = true := by
      simp [List.any_append, Arg.isFrag]
    have hnotgt : ¬ countQ sql > (vs ++ Arg.frag f :: tail).length := not_lt.mpr hle
    have hloop := exprSubstLoop_frag_error e f hf sql.data vs tail "" [] hvs hlen
    simp only [toN1ql]
    rw [if_neg hnotgt, if_pos hany]
    exact hloop

/-- C6 witness: a child error (a custom, consumer-level error value) surfaces
unmodified through aliasing, OR-combination, clause joining, and nested
substitution, at concrete inputs. -/
theorem c6_error_propagation_witness :
    toN1ql (.alias (.fail (.custom "boom")) "t") = .error (.custom "boom")
    ∧ andOrToN1ql [Frag.expr "A" [], .fail (.custom "boom")] "OR" = .error (.custom "boom")
    ∧ (buildClauses [Frag.expr "A" [], .fail (.custom "boom")] "" ", " []).2
        = .error (.custom "boom")
    ∧ toN1ql (.expr "? ?" [.val (.vInt 1), .frag (.fail (.custom "boom"))])
        = .error (.custom "boom") := by
  have hA : ∀ x ∈ [Frag.expr "A" []], ∃ r, toN1ql x = .ok r := by
    intro x hx
    simp only [List.mem_singleton] at hx
    subst hx
    exact ⟨("A", []), by simp [toN1ql, countQ]⟩
  refine ⟨c6_error_propagation.1 _ "t" _ (by simp [toN1ql]), ?_, ?_, ?_⟩
  · simpa using c6_error_propagation.2.1 [Frag.expr "A" []] [] (.fail (.custom "boom"))
      "OR" (.custom "boom") hA (by simp [toN1ql])
  · simpa using c6_error_propagation.2.2.1 [Frag.expr "A" []] [] (.fail (.custom "boom"))
      "" ", " [] (.custom "boom") hA (by simp [toN1ql])
  · simpa using c6_error_propagation.2.2.2 "? ?" [.val (.vInt 1)] [] (.fail (.custom "boom"))
      (.custom "boom") (by simp [Arg.isFrag]) (by simp [toN1ql]) (by decide) (by decide)

/-- The singleton string consists of the one character. -/
theorem singleton_data (c : Char) : (String.singleton c).data = [c] := rfl

/-- The `buildClauses` loop refines the spec-level join: when every part
renders successfully, the buffer receives the index-based join of the texts
and the arguments of the non-empty-rendering parts are appended in order. -/
theorem buildClausesAux_spec (sep : String) :
    ∀ (parts : List Frag) (rs : List (String × List Arg)) (i : Nat) (sql0 : String)
      (args0 : List Arg),
      parts.map toN1ql = rs.map Except.ok →
      buildClausesAux sep parts i sql0 args0
        = (sql0 ++ specJoinAux sep (rs.map Prod.fst) i,
           .ok (args0 ++ ((rs.filter (fun r => r.1 != "")).map Prod.snd).join)) := by
  intro parts
  induction parts with
  | nil =>
    intro rs i sql0 args0 h
    have hrs : rs = [] := by
      cases rs with
      | nil => rfl
      | cons r rs2 => simp at h
    subst hrs
    simp [buildClausesAux, specJoinAux, String.append_empty]
  | cons p ps ih =>
    intro rs i sql0 args0 h
    cases rs with
    | nil => simp at h
    | cons r rs2 =>
      simp only [List.map_cons, List.cons.injEq] at h
      obtain ⟨h1, h2⟩ := h
      obtain ⟨s, a⟩ := r
      by_cases hs : s = ""
      · subst hs
        simp only [buildClausesAux, h1]
        rw [ih rs2 (i + 1) sql0 args0 h2]
        simp [specJoinAux, List.filter_cons, String.empty_append]
      · have hlen : 0 < s.length := (string_length_pos_iff s).2 hs
        simp only [buildClausesAux, h1]
        rw [if_pos hlen, ih rs2 (i + 1) _ _ h2]
        by_cases hcond : 0 < i ∧ 0 < sep.length <;>
          simp [hcond, specJoinAux, hs, String.append_assoc, String.empty_append,
            List.filter_cons, bne_iff_ne]

/-- From index 1 on, every non-empty text is preceded by one separator, so a
single-character separator absent from the texts occurs once per non-empty
text. -/
theorem specJoinAux_count_from_one (c : Char) :
    ∀ (ts : List String) (i : Nat), 1 ≤ i → (∀ t ∈ ts, c ∉ t.data) →
      (specJoinAux (String.singleton c) ts i).data.count c
        = ((ts.filter (fun t => t != "")).length) := by
  intro ts
  induction ts with
  | nil => intro i hi h; simp [specJoinAux]
  | cons t ts2 ih =>
    intro i hi h
    have ht : c ∉ t.data := h t (by simp)
    have hrec := ih (i + 1) (by omega) (fun x hx => h x (List.mem_cons_of_mem _ hx))
    by_cases hte : t = ""
    · subst hte
      simp [specJoinAux, String.data_append, List.count_append, hrec, List.filter_cons]
    · have hone : 0 < (String.singleton c).length := by simp [String.length, singleton_data]
      simp [specJoinAux, hte, hi, hone, Nat.lt_of_lt_of_le Nat.zero_lt_one hi,
        String.data_append, List.count_append, hrec, List.filter_cons, bne_iff_ne,
        singleton_data, List.count_eq_zero_of_not_mem ht]

/-- At index 0 the first text gets no separator; from index 1 on each
non-empty text gets one.  So the total separator count is the number of
non-empty texts at positions ≥ 1. -/
theorem specJoin_count (c : Char) (texts : List String) (h : ∀ t ∈ texts, c ∉ t.data) :
    (specJoin (String.singleton c) texts).data.count c = specSepCount texts := by
  cases texts with
  | nil => simp [specJoin, specJoinAux, specSepCount]
  | cons t ts =>
    have ht : c ∉ t.data := h t (by simp)
    have hrec := specJoinAux_count_from_one c ts 1 (by omega)
      (fun x hx => h x (List.mem_cons_of_mem _ hx))
    by_cases hte : t = ""
    · subst hte
      simp [specJoin, specJoinAux, specSepCount, String.data_append, List.count_append, hrec]
    · simp [specJoin, specJoinAux, specSepCount, hte, String.data_append,
        List.count_append, hrec, List.count_eq_zero_of_not_mem ht]

/-- C2 (amended): when all fragments render successfully, clause joining
renders each in order, skips empty renderings, and emits the separator before
every non-empty rendering at POSITIVE INDEX in the original list (not before
every non-empty rendering after the first non-empty one); hence with a
single-character separator not occurring in the texts, the output contains one
separator per non-empty rendering at positions ≥ 1 — which equals
N − emptyCount − 1 exactly when the first fragment renders non-empty, and a
separator IS emitted before the first non-empty rendering whenever an earlier
fragment rendered empty. -/
theorem c2_clause_joining_amended :
    (∀ (parts : List Frag) (rs : List (String × List Arg)) (sep : String),
      parts.map toN1ql = rs.map Except.ok →
      buildClauses parts "" sep []
        = (specJoin sep (rs.map Prod.fst),
           .ok (((rs.filter (fun r => r.1 != "")).map Prod.snd).join)))
    ∧ (∀ (c : Char) (texts : List String), (∀ t ∈ texts, c ∉ t.data) →
        (specJoin (String.singleton c) texts).data.count c = specSepCount texts)
    ∧ (∀ (t : String) (ts : List String),
        specSepCount (t :: ts)
          = ((t :: ts).filter (fun x => x != "")).length - (if t = "" then 0 else 1)) := by
  refine ⟨fun parts rs sep h => ?_, fun c texts h => specJoin_count c texts h,
    fun t ts => ?_⟩
  · have := buildClausesAux_spec sep parts rs 0 "" [] h
    simpa [buildClauses, specJoin, String.empty_append] using this
  · by_cases hte : t = "" <;>
      simp [specSepCount, hte, List.filter_cons]

/-- C2 witness: the three fragments rendering to "", "A", "B" joined with ","
give the spec-level join with one separator per non-empty text at positions
≥ 1 — here two separators, since the empty rendering is first. -/
theorem c2_clause_joining_amended_witness :
    buildClauses [Frag.expr "" [], .expr "A" [], .expr "B" []] "" "," []
      = (specJoin "," ["", "A", "B"], .ok [])
    ∧ (specJoin (String.singleton ',') ["", "A", "B"]).data.count ','
        = specSepCount ["", "A", "B"] := by
  constructor
  · have := c2_clause_joining_amended.1 [Frag.expr "" [], .expr "A" [], .expr "B" []]
      [("", []), ("A", []), ("B", [])] "," (by simp [toN1ql, countQ])
    simpa using this
  · exact c2_clause_joining_amended.2.1 ',' ["", "A", "B"] (by decide)

/-- C2 counterexample: with fragments rendering to "", "A", "B" and separator
",", the output is ",A,B": it contains 2 separators, not
N − emptyCount − 1 = 3 − 1 − 1 = 1, and a separator IS emitted before the
first non-empty rendering (the output starts with the separator). -/
theorem c2_clause_joining_counterexample :
    buildClauses [Frag.expr "" [], .expr "A" [], .expr "B" []] "" "," []
      = (",A,B", .ok [])
    ∧ (",A,B").data.count ',' = 2
    ∧ ¬ ((",A,B").data.count ',' = 3 - 1 - 1)
    ∧ (",A,B").data.head? = some ',' := by
  refine ⟨?_, by decide, by decide, by decide⟩
  simp [buildClauses, buildClausesAux, toN1ql, countQ]
  rfl

/-- C7: registering shape "S" with a record type whose field X is an int, then
`Set(b,"X",5)` on the empty S builder, makes `GetStruct` return a record whose field X is 5 —
and likewise for every int value stored under the exported name "X"; an
unregistered shape yields none (nil) without erroring.  The reflect panic
paths of the model are real, not vacuous: a stored value that is not
assignable to the int field (a string) and a stored persistent list hitting
the non-slice int field both abort with a FieldAssignmentError-class panic
instead of returning a record. -/
theorem c7_getStruct_materialization :
    GetStruct [("S", [("X", FieldTy.tInt)])] "S" (Tree.nil.set "X" (.vInt 5))
      = .ok (some [("X", Val.vInt 5)])
    ∧ (∀ n : Int, GetStruct [("S", [("X", FieldTy.tInt)])] "S" (Tree.nil.set "X" (.vInt n))
        = .ok (some [("X", Val.vInt n)]))
    ∧ (∀ m : Tree, GetStruct [] "S" m = .ok none)
    ∧ (∃ msg, GetStruct [("S", [("X", FieldTy.tInt)])] "S" (Tree.nil.set "X" (.vStr "no"))
        = .error msg)
    ∧ (∃ msg, GetStruct [("S", [("X", FieldTy.tInt)])] "S"
        (Tree.nil.set "X" (.vList [.vInt 1])) = .error msg) := by
  exact ⟨rfl, fun n => rfl, fun m => rfl, ⟨_, rfl⟩, ⟨_, rfl⟩⟩

end N1qlizer
